import Mathlib

/-!
Verification of the calc-entry arithmetic evaluator
(`applications/test/dictionary/calcEntry/calcEntryParser.cpp`), a Coco/R
generated recursive-descent parser that evaluates a small arithmetic
grammar while parsing and repositions the host buffer cursor after a
braced `{ Expr }` form.

The state-passing embedding below mirrors the C++ source: the shared
`Scanner` token stream is a list of tokens (an exhausted scanner keeps
returning the end-of-file token, as Coco/R scanners do), the mutable
`Parser` fields (`t`, `la`, `dummyToken`, `errDist`) and the `Errors`
accumulator are fields of an explicit state record, and each member
function becomes a function from state to state.  Grammar procedures
additionally thread the by-reference `scalar&` accumulator as an explicit
value of a host scalar type `α`.
-/

namespace CalcEntry

/-- A Coco/R token: `kind` (terminal discriminant), `val` (lexeme text),
`pos` (absolute buffer offset of the token's first character), and the
diagnostic position `line`/`col`.  The C++ `next` link is used only
inside the scanner's peek buffer and by the dummy-token reset
(`dummyToken->next = NULL`), never read by the parser, so it is omitted. -/
structure Token where
  kind : Nat
  val : String
  pos : Nat
  line : Nat
  col : Nat
deriving Repr, DecidableEq

/-- Modelled from the spec: the largest genuine terminal kind.  The parser
header with this constant is not among the repository files here; the value
13 is fixed by the source's `StartOf` membership table, whose rows have
`maxT + 2 = 15` columns, and by `Errors::strerror`, whose per-terminal
messages end at code 13 (`"??? expected"`). -/
def maxT : Nat := 13

/-- Modelled from the spec: the "configured minimum" number of successfully
consumed tokens that must separate two reported diagnostics.  The parser
header with this constant is not among the repository files here; the stock
Coco/R value 2 is used.  Every theorem about it below holds for any
positive choice. -/
def minErrDist : Nat := 2

/-- The end-of-file token an exhausted scanner keeps producing (kind 0). -/
def eofToken : Token := { kind := 0, val := "", pos := 0, line := 0, col := 0 }

/-- The fresh `new Token()` that `Parse()` installs as `la` and
`dummyToken` (`la->val = coco_string_create(L"Dummy Token")`). -/
def dummyInit : Token := { kind := 0, val := "Dummy Token", pos := 0, line := 0, col := 0 }

/-- Stand-in for the NULL token pointers the constructor leaves in
`t` and `la`; never dereferenced before `Parse()` overwrites them. -/
def nullToken : Token := { kind := 0, val := "", pos := 0, line := 0, col := 0 }

/-- A diagnostic recorded by `Errors`: `Errors::SynErr(line, col, n)` or
`Errors::Error(line, col, msg)` (the latter reached from `SemErr`).
`Errors::count` is the length of this list, since exactly these two
entry points increment it. -/
inductive Diag where
  | syn : Nat → Nat → Nat → Diag
  | sem : Nat → Nat → Diag
deriving Repr, DecidableEq

/-- The human-readable message `Errors::strerror` renders for a syntax
error code. -/
def strerror (n : Nat) : String :=
  match n with
  | 0 => "EOF expected"
  | 1 => "ident expected"
  | 2 => "string expected"
  | 3 => "variable expected"
  | 4 => "number expected"
  | 5 => "\"\x7b\" expected"
  | 6 => "\"\x7d\" expected"
  | 7 => "\"+\" expected"
  | 8 => "\"-\" expected"
  | 9 => "\"*\" expected"
  | 10 => "\"/\" expected"
  | 11 => "\"(\" expected"
  | 12 => "\")\" expected"
  | 13 => "??? expected"
  | 14 => "invalid calcEntry"
  | 15 => "invalid Factor"
  | _ => "error"

/-- The joint state of `Parser`, its `Errors` object and the scanner:
`toks` is what the scanner has not yet produced, `bufPos` records the
offset the parser passed to `scanner->buffer->SetPos` (`none` while the
parser has not repositioned the buffer), and `t`, `la`, `dummy`,
`errDist`, `errs` mirror `t`, `la`, `dummyToken`, `errDist` and the
accumulated diagnostics. -/
structure PState where
  toks : List Token
  bufPos : Option Nat
  t : Token
  la : Token
  dummy : Token
  errDist : Nat
  errs : List Diag
deriving Repr, DecidableEq

/-- `Errors::count`: incremented exactly once per recorded diagnostic. -/
def errCount (s : PState) : Nat := s.errs.length

/-- `Scanner::Scan()`: the next token and the rest of the stream; an
exhausted scanner returns the end-of-file token and stays exhausted. -/
def scan : List Token → Token × List Token
  | [] => (eofToken, [])
  | tok :: rest => (tok, rest)

/-- `Parser::SynErr(n)`: report a syntax error at the lookahead's position
when at least `minErrDist` tokens were consumed since the last error,
and reset `errDist` to 0 either way. -/
def SynErr (n : Nat) (s : PState) : PState :=
  if minErrDist ≤ s.errDist then
    { s with errs := s.errs ++ [Diag.syn s.la.line s.la.col n], errDist := 0 }
  else
    { s with errDist := 0 }

/-- `Parser::SemErr(msg)`: report a semantic error at the current token's
position under the same `errDist` gate, and reset `errDist` to 0. -/
def SemErr (s : PState) : PState :=
  if minErrDist ≤ s.errDist then
    { s with errs := s.errs ++ [Diag.sem s.t.line s.t.col], errDist := 0 }
  else
    { s with errDist := 0 }

/-- The loop body of `Parser::Get()`.  Each round sets `t := la`, scans the
next token, and stops (incrementing `errDist`) when its kind is a genuine
terminal (`kind ≤ maxT`); otherwise the previous lookahead's data is copied
into the reusable dummy token, which becomes both `t` and `la`, and the
pragma token is dropped.  The fuel argument only bounds the recursion;
`Get` supplies enough for the scanner to reach a genuine token (at worst
the end-of-file token on exhaustion). -/
def GetAux : Nat → PState → PState
  | 0, s => s
  | fuel + 1, s =>
    if ((scan s.toks).1).kind ≤ maxT then
      { s with t := s.la, la := (scan s.toks).1, toks := (scan s.toks).2,
               errDist := s.errDist + 1 }
    else
      GetAux fuel
        { s with
          t := { kind := s.la.kind, val := s.la.val, pos := s.la.pos,
                 line := s.la.line, col := s.la.col },
          la := { kind := s.la.kind, val := s.la.val, pos := s.la.pos,
                  line := s.la.line, col := s.la.col },
          dummy := { kind := s.la.kind, val := s.la.val, pos := s.la.pos,
                     line := s.la.line, col := s.la.col },
          toks := (scan s.toks).2 }

/-- `Parser::Get()`. -/
def Get (s : PState) : PState := GetAux (s.toks.length + 1) s

/-- `Parser::Expect(n)`: consume the lookahead when it has kind `n`,
otherwise report `SynErr(n)` and leave the lookahead in place. -/
def Expect (n : Nat) (s : PState) : PState :=
  if s.la.kind = n then Get s else SynErr n s

/-- The source's `StartOf` membership table `set[2][15]`: row 0 holds only
the end-of-file kind, row 1 the Factor start kinds 3, 4, 8, 11. -/
def startSet : Nat → Nat → Bool
  | 0, 0 => true
  | 1, 3 => true
  | 1, 4 => true
  | 1, 8 => true
  | 1, 11 => true
  | _, _ => false

/-- `Parser::StartOf(s)`: table membership of the lookahead's kind. -/
def StartOf (idx : Nat) (s : PState) : Bool := startSet idx s.la.kind

/-- The loop guard of `Parser::WeakSeparator`'s resynchronization loop:
stop once the lookahead is in the sync-follow set, the repeat-follow set
or set 0 (which holds the end-of-file kind). -/
def wsGuard (syFol repFol : Nat) (s : PState) : Bool :=
  StartOf syFol s || StartOf repFol s || StartOf 0 s

/-- The resynchronization loop of `Parser::WeakSeparator`: discard tokens
with `Get()` until `wsGuard` holds.  The fuel only bounds the recursion;
`WeakSeparator` supplies enough for the loop to reach the guard (at worst
at the end-of-file token, which is in set 0). -/
def wsSkip : Nat → Nat → Nat → PState → PState
  | 0, _, _, s => s
  | fuel + 1, syFol, repFol, s =>
    if wsGuard syFol repFol s then s else wsSkip fuel syFol repFol (Get s)

/-- `Parser::WeakSeparator(n, syFol, repFol)`: consume a present separator
and answer `true`; without a diagnostic answer `false` when the lookahead
is already in the repeat-follow set; otherwise report `SynErr(n)`, skip
until resynchronized, and answer whether the lookahead then lies in the
sync-follow set. -/
def WeakSeparator (n syFol repFol : Nat) (s : PState) : Bool × PState :=
  if s.la.kind = n then (true, Get s)
  else if StartOf repFol s then (false, s)
  else
    (StartOf syFol (wsSkip ((SynErr n s).toks.length + 2) syFol repFol (SynErr n s)),
     wsSkip ((SynErr n s).toks.length + 2) syFol repFol (SynErr n s))

/-- `scanner->buffer->SetPos(p)`: the single place the parser repositions
the shared buffer cursor; recorded so theorems can tell whether the
repositioning was performed at all. -/
def SetPos (p : Nat) (s : PState) : PState := { s with bufPos := some p }

/-- The `Parser::Parser(scan, err)` constructor state: NULL `t`, `la` and
`dummyToken`, `errDist` preset to `minErrDist`, a fresh `Errors`
object with `count == 0`, and no buffer repositioning performed. -/
def mkParser (toks : List Token) : PState :=
  { toks := toks, bufPos := none, t := nullToken, la := nullToken,
    dummy := nullToken, errDist := minErrDist, errs := [] }

section Eval

variable {α : Type} [Zero α] [Add α] [Sub α] [Mul α] [Div α] [Neg α]

/- Modelled from the spec: the host collaborators `getDictLookup`
(variable/dictionary lookup, `resolve_variable`) and `getScalar`
(literal-to-scalar conversion, `parse_numeric_literal`) live in the
calcEntry header, which is not among the repository files here; the spec
declares both infallible at this layer, so each is an arbitrary function
from the consumed token's text to a host scalar. -/
variable (dictVal litVal : String → α)

mutual

/-- `Parser::Factor(val)`: variable, number, `- ( Expr )` or `( Expr )`;
any other lookahead reports `SynErr(15)` ("invalid Factor") and leaves
`val` unchanged. -/
def FactorP : Nat → α → PState → α × PState
  | 0, v, s => (v, s)
  | fuel + 1, v, s =>
    if s.la.kind = 3 then
      (dictVal (Get s).t.val, Get s)
    else if s.la.kind = 4 then
      (litVal (Get s).t.val, Get s)
    else if s.la.kind = 8 then
      (-(ExprP fuel v (Expect 11 (Get s))).1,
       Expect 12 (ExprP fuel v (Expect 11 (Get s))).2)
    else if s.la.kind = 11 then
      ((ExprP fuel v (Get s)).1, Expect 12 (ExprP fuel v (Get s)).2)
    else (v, SynErr 15 s)

/-- `Parser::Term(val)`: a Factor followed by the `(*|/) Factor` loop,
whose reused local `val2` starts at 0. -/
def TermP : Nat → α → PState → α × PState
  | 0, v, s => (v, s)
  | fuel + 1, v, s =>
    TermLoopP fuel (FactorP fuel v s).1 0 (FactorP fuel v s).2

/-- The `while (la->kind == 9 || la->kind == 10)` loop of `Parser::Term`:
each round consumes the operator, runs `Factor(val2)` on the reused
local, and folds `val *= val2` or `val /= val2`. -/
def TermLoopP : Nat → α → α → PState → α × PState
  | 0, v, _, s => (v, s)
  | fuel + 1, v, v2, s =>
    if s.la.kind = 9 then
      TermLoopP fuel (v * (FactorP fuel v2 (Get s)).1) (FactorP fuel v2 (Get s)).1
        (FactorP fuel v2 (Get s)).2
    else if s.la.kind = 10 then
      TermLoopP fuel (v / (FactorP fuel v2 (Get s)).1) (FactorP fuel v2 (Get s)).1
        (FactorP fuel v2 (Get s)).2
    else (v, s)

/-- `Parser::Expr(val)`: a Term followed by the `(+|-) Term` loop, whose
reused local `val2` starts at 0. -/
def ExprP : Nat → α → PState → α × PState
  | 0, v, s => (v, s)
  | fuel + 1, v, s =>
    ExprLoopP fuel (TermP fuel v s).1 0 (TermP fuel v s).2

/-- The `while (la->kind == 7 || la->kind == 8)` loop of `Parser::Expr`:
each round consumes the operator, runs `Term(val2)` on the reused local,
and folds `val += val2` or `val -= val2`. -/
def ExprLoopP : Nat → α → α → PState → α × PState
  | 0, v, _, s => (v, s)
  | fuel + 1, v, v2, s =>
    if s.la.kind = 7 then
      ExprLoopP fuel (v + (TermP fuel v2 (Get s)).1) (TermP fuel v2 (Get s)).1
        (TermP fuel v2 (Get s)).2
    else if s.la.kind = 8 then
      ExprLoopP fuel (v - (TermP fuel v2 (Get s)).1) (TermP fuel v2 (Get s)).1
        (TermP fuel v2 (Get s)).2
    else (v, s)

end

/-- `Parser::calcEntry()`: `val = 0`, then either the braced alternative
(kind 5 is `{`) — which after `Expr` and `Expect(6)` repositions the
buffer to `t->pos + coco_string_length(t->val)` — or the bare alternative
when the lookahead starts a Factor, or `SynErr(14)` ("invalid calcEntry"). -/
def calcEntryP (fuel : Nat) (s : PState) : α × PState :=
  if s.la.kind = 5 then
    ((ExprP dictVal litVal fuel (0 : α) (Get s)).1,
     SetPos
       ((Expect 6 (ExprP dictVal litVal fuel (0 : α) (Get s)).2).t.pos
         + ((Expect 6 (ExprP dictVal litVal fuel (0 : α) (Get s)).2).t.val).length)
       (Expect 6 (ExprP dictVal litVal fuel (0 : α) (Get s)).2))
  else if StartOf 1 s then
    ((ExprP dictVal litVal fuel (0 : α) s).1,
     Expect 0 (ExprP dictVal litVal fuel (0 : α) s).2)
  else ((0 : α), SynErr 14 s)

/-- `Parser::Parse()`: install the fresh dummy token as lookahead, do one
initial `Get()`, and run `calcEntry()`; the pair is the final `val`
member and state. -/
def ParseP (fuel : Nat) (toks : List Token) : α × PState :=
  calcEntryP dictVal litVal fuel
    (Get { mkParser toks with la := dummyInit, dummy := dummyInit })

end Eval

/-- The token a parse sees next when `rest` is what the scanner has not
yet produced beyond the current lookahead: the head of `rest`, or the
end-of-file token once the scanner is exhausted. -/
def nextTok (rest : List Token) : Token := rest.headD eofToken

/-- The state reached from `s` after consuming tokens down to remainder
`rest`: the last consumed token is `lastT`, the lookahead is the head of
`rest` (end-of-file on exhaustion), `errDist` grew by the `n` consumed
tokens, and everything else — diagnostics, buffer position, dummy token —
is untouched. -/
def advanced (s : PState) (lastT : Token) (rest : List Token) (n : Nat) : PState :=
  { toks := rest.tail, bufPos := s.bufPos, t := lastT, la := nextTok rest,
    dummy := s.dummy, errDist := s.errDist + n, errs := s.errs }

theorem advanced_advanced (s : PState) (t1 t2 : Token) (l1 l2 : List Token)
    (n1 n2 : Nat) :
    advanced (advanced s t1 l1 n1) t2 l2 n2 = advanced s t2 l2 (n1 + n2) := by
  simp [advanced, Nat.add_assoc]

theorem advanced_zero (s : PState) (l : List Token) :
    s.la = nextTok l → s.toks = l.tail → advanced s s.t l 0 = s := by
  intro hla htoks
  cases s
  simp_all [advanced]

/-- One `Get()` on a stream whose next genuine token is already the
lookahead: with `s.la = a` and `s.toks = l`, provided the head of `l`
(or the end-of-file token) is a genuine terminal, `Get` consumes `a`. -/
theorem get_consume (s : PState) (a : Token) (l : List Token)
    (hla : s.la = a) (htoks : s.toks = l) (hk : (nextTok l).kind ≤ maxT) :
    Get s = advanced s a l 1 := by
  cases l with
  | nil =>
    simp [Get, htoks, GetAux, scan, nextTok, eofToken, maxT, advanced, hla]
  | cons b l2 =>
    simp only [nextTok, List.headD] at hk
    simp [Get, htoks, GetAux, scan, hk, nextTok, advanced, hla]

theorem expect_consume (s : PState) (n : Nat) (a : Token) (l : List Token)
    (hla : s.la = a) (htoks : s.toks = l) (hn : a.kind = n)
    (hk : (nextTok l).kind ≤ maxT) :
    Expect n s = advanced s a l 1 := by
  rw [Expect, if_pos (by rw [hla, hn])]
  exact get_consume s a l hla htoks hk

mutual

/-- Phrase shapes of the production `Expr := Term ((+|-) Term)*`, carrying
the concrete tokens so that positions and lexemes stay arbitrary. -/
inductive GExpr : Type where
  | mk : GTerm → GExprRest → GExpr

/-- The `((+|-) Term)*` tail of an `Expr`. -/
inductive GExprRest : Type where
  | nil : GExprRest
  | cons : Token → GTerm → GExprRest → GExprRest

/-- Phrase shapes of the production `Term := Factor ((*|/) Factor)*`. -/
inductive GTerm : Type where
  | mk : GFac → GTermRest → GTerm

/-- The `((*|/) Factor)*` tail of a `Term`. -/
inductive GTermRest : Type where
  | nil : GTermRest
  | cons : Token → GFac → GTermRest → GTermRest

/-- Phrase shapes of `Factor := variable | number | - ( Expr ) | ( Expr )`. -/
inductive GFac : Type where
  | var : Token → GFac
  | num : Token → GFac
  | neg : Token → Token → GExpr → Token → GFac
  | paren : Token → GExpr → Token → GFac

end

mutual

/-- Well-formedness of an `Expr` phrase: every token carries the kind its
grammar position demands (3 variable, 4 number, 5 `{`, 6 `}`, 7 `+`,
8 `-`, 9 `*`, 10 `/`, 11 `(`, 12 `)`). -/
def wfE : GExpr → Bool
  | .mk t r => wfT t && wfERest r

def wfERest : GExprRest → Bool
  | .nil => true
  | .cons op tm r => (op.kind == 7 || op.kind == 8) && wfT tm && wfERest r

def wfT : GTerm → Bool
  | .mk fa r => wfF fa && wfTRest r

def wfTRest : GTermRest → Bool
  | .nil => true
  | .cons op fa r => (op.kind == 9 || op.kind == 10) && wfF fa && wfTRest r

def wfF : GFac → Bool
  | .var tok => tok.kind == 3
  | .num tok => tok.kind == 4
  | .neg m o e c => m.kind == 8 && o.kind == 11 && wfE e && c.kind == 12
  | .paren o e c => o.kind == 11 && wfE e && c.kind == 12

end

mutual

/-- The token string an `Expr` phrase spells. -/
def toksE : GExpr → List Token
  | .mk t r => toksT t ++ toksERest r

def toksERest : GExprRest → List Token
  | .nil => []
  | .cons op tm r => op :: (toksT tm ++ toksERest r)

def toksT : GTerm → List Token
  | .mk fa r => toksF fa ++ toksTRest r

def toksTRest : GTermRest → List Token
  | .nil => []
  | .cons op fa r => op :: (toksF fa ++ toksTRest r)

def toksF : GFac → List Token
  | .var tok => [tok]
  | .num tok => [tok]
  | .neg m o e c => m :: o :: (toksE e ++ [c])
  | .paren o e c => o :: (toksE e ++ [c])

end

mutual

/-- The last token of an `Expr` phrase (what `t` points at after the
phrase is consumed). -/
def lastE : GExpr → Token
  | .mk t r => lastERest (lastT t) r

def lastERest : Token → GExprRest → Token
  | d, .nil => d
  | _, .cons _ tm r => lastERest (lastT tm) r

def lastT : GTerm → Token
  | .mk fa r => lastTRest (lastF fa) r

def lastTRest : Token → GTermRest → Token
  | d, .nil => d
  | _, .cons _ fa r => lastTRest (lastF fa) r

def lastF : GFac → Token
  | .var tok => tok
  | .num tok => tok
  | .neg _ _ _ c => c
  | .paren _ _ c => c

end

mutual

/-- Fuel sufficient for the fueled grammar procedures to run an `Expr`
phrase without hitting the fuel bound. -/
def needE : GExpr → Nat
  | .mk t r => 1 + max (needT t) (needERest r)

def needERest : GExprRest → Nat
  | .nil => 1
  | .cons _ tm r => 1 + max (needT tm) (needERest r)

def needT : GTerm → Nat
  | .mk fa r => 1 + max (needF fa) (needTRest r)

def needTRest : GTermRest → Nat
  | .nil => 1
  | .cons _ fa r => 1 + max (needF fa) (needTRest r)

def needF : GFac → Nat
  | .var _ => 1
  | .num _ => 1
  | .neg _ _ e _ => 1 + needE e
  | .paren _ e _ => 1 + needE e

end

section SpecEval

variable {α : Type} [Zero α] [Add α] [Sub α] [Mul α] [Div α] [Neg α]
variable (dictVal litVal : String → α)

mutual

/-- Modelled from the spec: standard left-to-right, precedence-respecting
evaluation — `Expr` seeds an accumulator from its first `Term` and folds
each further `(+|-) Term` left-to-right, `Term` folds `(*|/) Factor`
left-to-right, negation negates a parenthesized sub-expression. -/
def evalE : GExpr → α
  | .mk t r => evalERest (evalT t) r

def evalERest : α → GExprRest → α
  | acc, .nil => acc
  | acc, .cons op tm r =>
    evalERest (if op.kind = 7 then acc + evalT tm else acc - evalT tm) r

def evalT : GTerm → α
  | .mk fa r => evalTRest (evalF fa) r

def evalTRest : α → GTermRest → α
  | acc, .nil => acc
  | acc, .cons op fa r =>
    evalTRest (if op.kind = 9 then acc * evalF fa else acc / evalF fa) r

def evalF : GFac → α
  | .var tok => dictVal tok.val
  | .num tok => litVal tok.val
  | .neg _ _ e _ => -(evalE e)
  | .paren _ e _ => evalE e

end

end SpecEval

@[simp] theorem advanced_toks (s : PState) (tk : Token) (l : List Token) (n : Nat) :
    (advanced s tk l n).toks = l.tail := rfl

@[simp] theorem advanced_bufPos (s : PState) (tk : Token) (l : List Token) (n : Nat) :
    (advanced s tk l n).bufPos = s.bufPos := rfl

@[simp] theorem advanced_t (s : PState) (tk : Token) (l : List Token) (n : Nat) :
    (advanced s tk l n).t = tk := rfl

@[simp] theorem advanced_la (s : PState) (tk : Token) (l : List Token) (n : Nat) :
    (advanced s tk l n).la = nextTok l := rfl

@[simp] theorem advanced_dummy (s : PState) (tk : Token) (l : List Token) (n : Nat) :
    (advanced s tk l n).dummy = s.dummy := rfl

@[simp] theorem advanced_errDist (s : PState) (tk : Token) (l : List Token) (n : Nat) :
    (advanced s tk l n).errDist = s.errDist + n := rfl

@[simp] theorem advanced_errs (s : PState) (tk : Token) (l : List Token) (n : Nat) :
    (advanced s tk l n).errs = s.errs := rfl

@[simp] theorem nextTok_cons (a : Token) (l : List Token) : nextTok (a :: l) = a := rfl

@[simp] theorem nextTok_nil : nextTok [] = eofToken := rfl

/-- A well-formed Factor phrase starts with a variable, number, `-` or `(`
token. -/
theorem firstF_kind (fa : GFac) (l : List Token) (h : wfF fa = true) :
    (nextTok (toksF fa ++ l)).kind = 3 ∨ (nextTok (toksF fa ++ l)).kind = 4 ∨
      (nextTok (toksF fa ++ l)).kind = 8 ∨ (nextTok (toksF fa ++ l)).kind = 11 := by
  cases fa <;> simp_all [wfF, toksF]

/-- A well-formed Term phrase starts like its first Factor. -/
theorem firstT_kind (t : GTerm) (l : List Token) (h : wfT t = true) :
    (nextTok (toksT t ++ l)).kind = 3 ∨ (nextTok (toksT t ++ l)).kind = 4 ∨
      (nextTok (toksT t ++ l)).kind = 8 ∨ (nextTok (toksT t ++ l)).kind = 11 := by
  cases t with
  | mk fa r =>
    have hf : wfF fa = true := by simp_all [wfT]
    rw [toksT, List.append_assoc]
    exact firstF_kind fa (toksTRest r ++ l) hf

/-- A well-formed Expr phrase starts like its first Factor. -/
theorem firstE_kind (e : GExpr) (l : List Token) (h : wfE e = true) :
    (nextTok (toksE e ++ l)).kind = 3 ∨ (nextTok (toksE e ++ l)).kind = 4 ∨
      (nextTok (toksE e ++ l)).kind = 8 ∨ (nextTok (toksE e ++ l)).kind = 11 := by
  cases e with
  | mk t r =>
    have ht : wfT t = true := by simp_all [wfE]
    rw [toksE, List.append_assoc]
    exact firstT_kind t (toksERest r ++ l) ht

theorem firstE_le_maxT (e : GExpr) (l : List Token) (h : wfE e = true) :
    (nextTok (toksE e ++ l)).kind ≤ maxT := by
  rcases firstE_kind e l h with h1 | h1 | h1 | h1 <;> simp [h1, maxT]

theorem firstT_le_maxT (t : GTerm) (l : List Token) (h : wfT t = true) :
    (nextTok (toksT t ++ l)).kind ≤ maxT := by
  rcases firstT_kind t l h with h1 | h1 | h1 | h1 <;> simp [h1, maxT]

section RunLemma

variable {α : Type} [Zero α] [Add α] [Sub α] [Mul α] [Div α] [Neg α]
variable (dictVal litVal : String → α)

/-- Running `Factor` with fuel `f` over a well-formed Factor phrase
consumes exactly its tokens and returns its spec evaluation. -/
@[reducible] def SFac (f : Nat) : Prop :=
  ∀ fa (v : α) s more, wfF fa = true → needF fa ≤ f →
    s.la = nextTok (toksF fa ++ more) → s.toks = (toksF fa ++ more).tail →
    (nextTok more).kind ≤ maxT →
    FactorP dictVal litVal f v s
      = (evalF dictVal litVal fa, advanced s (lastF fa) more (toksF fa).length)

/-- Running `Expr` with fuel `f` over a well-formed Expr phrase whose
follow token is no arithmetic operator consumes exactly its tokens and
returns its spec evaluation. -/
@[reducible] def SExpr (f : Nat) : Prop :=
  ∀ e (v : α) s more, wfE e = true → needE e ≤ f →
    s.la = nextTok (toksE e ++ more) → s.toks = (toksE e ++ more).tail →
    (nextTok more).kind ≤ maxT → (nextTok more).kind ≠ 7 → (nextTok more).kind ≠ 8 →
    (nextTok more).kind ≠ 9 → (nextTok more).kind ≠ 10 →
    ExprP dictVal litVal f v s
      = (evalE dictVal litVal e, advanced s (lastE e) more (toksE e).length)

/-- Running the `(+|-) Term` loop with fuel `f` over a well-formed tail
folds the accumulator left-to-right as the spec evaluation does. -/
@[reducible] def SExprRest (f : Nat) : Prop :=
  ∀ r (acc v2 : α) s more, wfERest r = true → needERest r ≤ f →
    s.la = nextTok (toksERest r ++ more) → s.toks = (toksERest r ++ more).tail →
    (nextTok more).kind ≤ maxT → (nextTok more).kind ≠ 7 → (nextTok more).kind ≠ 8 →
    (nextTok more).kind ≠ 9 → (nextTok more).kind ≠ 10 →
    ExprLoopP dictVal litVal f acc v2 s
      = (evalERest dictVal litVal acc r,
         advanced s (lastERest s.t r) more (toksERest r).length)

/-- Running `Term` with fuel `f` over a well-formed Term phrase whose
follow token is no `*` or `/` consumes exactly its tokens and returns its
spec evaluation. -/
@[reducible] def STerm (f : Nat) : Prop :=
  ∀ t (v : α) s more, wfT t = true → needT t ≤ f →
    s.la = nextTok (toksT t ++ more) → s.toks = (toksT t ++ more).tail →
    (nextTok more).kind ≤ maxT → (nextTok more).kind ≠ 9 → (nextTok more).kind ≠ 10 →
    TermP dictVal litVal f v s
      = (evalT dictVal litVal t, advanced s (lastT t) more (toksT t).length)

/-- Running the `(*|/) Factor` loop with fuel `f` over a well-formed tail
folds the accumulator left-to-right as the spec evaluation does. -/
@[reducible] def STermRest (f : Nat) : Prop :=
  ∀ r (acc v2 : α) s more, wfTRest r = true → needTRest r ≤ f →
    s.la = nextTok (toksTRest r ++ more) → s.toks = (toksTRest r ++ more).tail →
    (nextTok more).kind ≤ maxT → (nextTok more).kind ≠ 9 → (nextTok more).kind ≠ 10 →
    TermLoopP dictVal litVal f acc v2 s
      = (evalTRest dictVal litVal acc r,
         advanced s (lastTRest s.t r) more (toksTRest r).length)

theorem one_le_needF (fa : GFac) : 1 ≤ needF fa := by
  cases fa <;> simp only [needF] <;> omega

theorem one_le_needE (e : GExpr) : 1 ≤ needE e := by
  cases e
  simp only [needE]
  omega

theorem one_le_needERest (r : GExprRest) : 1 ≤ needERest r := by
  cases r <;> simp only [needERest] <;> omega

theorem one_le_needT (t : GTerm) : 1 ≤ needT t := by
  cases t
  simp only [needT]
  omega

theorem one_le_needTRest (r : GTermRest) : 1 ≤ needTRest r := by
  cases r <;> simp only [needTRest] <;> omega

/-- What follows a Term inside an Expr: either an additive operator from
the tail or the Expr's own follow token; never `*`, `/`, or a pragma. -/
theorem nextERest_kinds (r : GExprRest) (more : List Token)
    (hwf : wfERest r = true) (hmax : (nextTok more).kind ≤ maxT)
    (h9 : (nextTok more).kind ≠ 9) (h10 : (nextTok more).kind ≠ 10) :
    (nextTok (toksERest r ++ more)).kind ≤ maxT ∧
      (nextTok (toksERest r ++ more)).kind ≠ 9 ∧
      (nextTok (toksERest r ++ more)).kind ≠ 10 := by
  cases r with
  | nil => simpa using ⟨hmax, h9, h10⟩
  | cons op tm r2 =>
    have hop : op.kind = 7 ∨ op.kind = 8 := by
      simp only [wfERest, Bool.and_eq_true, Bool.or_eq_true, beq_iff_eq] at hwf
      exact hwf.1.1
    rcases hop with hop | hop <;> simp [toksERest, hop, maxT]

/-- What follows a Factor inside a Term: a multiplicative operator from
the tail or the Term's own follow token; never a pragma. -/
theorem nextTRest_le (r : GTermRest) (more : List Token)
    (hwf : wfTRest r = true) (hmax : (nextTok more).kind ≤ maxT) :
    (nextTok (toksTRest r ++ more)).kind ≤ maxT := by
  cases r with
  | nil => simpa using hmax
  | cons op fa r2 =>
    have hop : op.kind = 9 ∨ op.kind = 10 := by
      simp only [wfTRest, Bool.and_eq_true, Bool.or_eq_true, beq_iff_eq] at hwf
      exact hwf.1.1
    rcases hop with hop | hop <;> simp [toksTRest, hop, maxT]

/-- The grammar procedures, run over any well-formed phrase with enough
fuel, consume exactly the phrase's tokens, leave the diagnostics and the
buffer position untouched, advance `errDist` by the number of consumed
tokens, and compute the spec's left-to-right fold. -/
theorem runAll : ∀ f : Nat,
    SFac dictVal litVal f ∧ SExpr dictVal litVal f ∧ SExprRest dictVal litVal f ∧
      STerm dictVal litVal f ∧ STermRest dictVal litVal f := by
  intro f
  induction f with
  | zero =>
    refine ⟨?_, ?_, ?_, ?_, ?_⟩
    · intro fa v s more _ hneed _ _ _
      exact absurd hneed (by have := one_le_needF fa; omega)
    · intro e v s more _ hneed _ _ _ _ _ _ _
      exact absurd hneed (by have := one_le_needE e; omega)
    · intro r acc v2 s more _ hneed _ _ _ _ _ _ _
      exact absurd hneed (by have := one_le_needERest r; omega)
    · intro t v s more _ hneed _ _ _ _ _
      exact absurd hneed (by have := one_le_needT t; omega)
    · intro r acc v2 s more _ hneed _ _ _ _ _
      exact absurd hneed (by have := one_le_needTRest r; omega)
  | succ f ih =>
    obtain ⟨ihF, ihE, ihER, ihT, ihTR⟩ := ih
    refine ⟨?_, ?_, ?_, ?_, ?_⟩
    · -- Factor
      intro fa v s more hwf hneed hla htoks hmax
      cases fa with
      | var tok =>
        have hk : tok.kind = 3 := by simpa [wfF] using hwf
        simp only [toksF, List.cons_append, List.nil_append, nextTok_cons,
          List.tail_cons] at hla htoks
        have hget := get_consume s tok more hla htoks hmax
        simp [FactorP, hla, hk, hget, evalF, lastF, toksF]
      | num tok =>
        have hk : tok.kind = 4 := by simpa [wfF] using hwf
        simp only [toksF, List.cons_append, List.nil_append, nextTok_cons,
          List.tail_cons] at hla htoks
        have hget := get_consume s tok more hla htoks hmax
        simp [FactorP, hla, hk, hget, evalF, lastF, toksF]
      | neg m o e c =>
        have hw := hwf
        simp only [wfF, Bool.and_eq_true, beq_iff_eq] at hw
        obtain ⟨⟨⟨h8, h11⟩, hwe⟩, h12⟩ := hw
        simp only [toksF, List.cons_append, List.append_assoc,
          List.singleton_append, nextTok_cons, List.tail_cons] at hla htoks
        have hneedE : needE e ≤ f := by
          simp only [needF] at hneed; omega
        have hg1 := get_consume s m (o :: (toksE e ++ c :: more)) hla htoks
          (by simp [h11, maxT])
        have hg2 := expect_consume (advanced s m (o :: (toksE e ++ c :: more)) 1)
          11 o (toksE e ++ c :: more) (by simp) (by simp) h11
          (firstE_le_maxT e (c :: more) hwe)
        rw [advanced_advanced] at hg2
        have hg3 := ihE e v (advanced s o (toksE e ++ c :: more) (1 + 1))
          (c :: more) hwe hneedE (by simp) (by simp)
          (by simp [h12, maxT]) (by simp [h12]) (by simp [h12])
          (by simp [h12]) (by simp [h12])
        rw [advanced_advanced] at hg3
        have hg4 := expect_consume
          (advanced s (lastE e) (c :: more) (1 + 1 + (toksE e).length))
          12 c more (by simp) (by simp) h12 hmax
        rw [advanced_advanced] at hg4
        simp only [FactorP, hla, h8, hg1, hg2, hg3, hg4]
        simp [evalF, lastF, toksF, List.length_append, List.length_cons]
        congr 1
        omega
      | paren o e c =>
        have hw := hwf
        simp only [wfF, Bool.and_eq_true, beq_iff_eq] at hw
        obtain ⟨⟨h11, hwe⟩, h12⟩ := hw
        simp only [toksF, List.cons_append, List.append_assoc,
          List.singleton_append, nextTok_cons, List.tail_cons] at hla htoks
        have hneedE : needE e ≤ f := by
          simp only [needF] at hneed; omega
        have hg1 := get_consume s o (toksE e ++ c :: more) hla htoks
          (firstE_le_maxT e (c :: more) hwe)
        have hg3 := ihE e v (advanced s o (toksE e ++ c :: more) 1)
          (c :: more) hwe hneedE (by simp) (by simp)
          (by simp [h12, maxT]) (by simp [h12]) (by simp [h12])
          (by simp [h12]) (by simp [h12])
        rw [advanced_advanced] at hg3
        have hg4 := expect_consume
          (advanced s (lastE e) (c :: more) (1 + (toksE e).length))
          12 c more (by simp) (by simp) h12 hmax
        rw [advanced_advanced] at hg4
        simp only [FactorP, hla, h11, hg1, hg3, hg4]
        simp [evalF, lastF, toksF, List.length_append, List.length_cons]
        congr 1
        omega
    · -- Expr
      intro e v s more hwf hneed hla htoks hmax h7 h8 h9 h10
      cases e with
      | mk t r =>
        have hw := hwf
        simp only [wfE, Bool.and_eq_true] at hw
        obtain ⟨hwt, hwr⟩ := hw
        simp only [toksE, List.append_assoc] at hla htoks
        have hnr := nextERest_kinds r more hwr hmax h9 h10
        have hneedT : needT t ≤ f := by simp only [needE] at hneed; omega
        have hneedR : needERest r ≤ f := by simp only [needE] at hneed; omega
        have hg1 := ihT t v s (toksERest r ++ more) hwt hneedT hla htoks
          hnr.1 hnr.2.1 hnr.2.2
        have hg2 := ihER r (evalT dictVal litVal t) 0
          (advanced s (lastT t) (toksERest r ++ more) (toksT t).length)
          more hwr hneedR (by simp) (by simp) hmax h7 h8 h9 h10
        rw [advanced_advanced] at hg2
        simp only [ExprP, hg1, hg2, advanced_t]
        simp [evalE, lastE, toksE, List.length_append]
    · -- ExprLoop
      intro r acc v2 s more hwf hneed hla htoks hmax h7 h8 h9 h10
      cases r with
      | nil =>
        simp only [toksERest, List.nil_append] at hla htoks
        have hs : advanced s s.t more 0 = s := advanced_zero s more hla htoks
        simp only [ExprLoopP, hla, evalERest, lastERest, toksERest]
        rw [if_neg (by simp [h7]), if_neg (by simp [h8])]
        simp [hs]
      | cons op tm r2 =>
        have hw := hwf
        simp only [wfERest, Bool.and_eq_true, Bool.or_eq_true, beq_iff_eq] at hw
        obtain ⟨⟨hop, hwt⟩, hwr⟩ := hw
        simp only [toksERest, List.cons_append, List.append_assoc,
          nextTok_cons, List.tail_cons] at hla htoks
        have hneedT : needT tm ≤ f := by simp only [needERest] at hneed; omega
        have hneedR : needERest r2 ≤ f := by simp only [needERest] at hneed; omega
        have hnr := nextERest_kinds r2 more hwr hmax h9 h10
        have hg1 := get_consume s op (toksT tm ++ (toksERest r2 ++ more)) hla htoks
          (firstT_le_maxT tm (toksERest r2 ++ more) hwt)
        have hg2 := ihT tm v2 (advanced s op (toksT tm ++ (toksERest r2 ++ more)) 1)
          (toksERest r2 ++ more) hwt hneedT (by simp) (by simp)
          hnr.1 hnr.2.1 hnr.2.2
        rw [advanced_advanced] at hg2
        rcases hop with hop | hop
        · have hg3 := ihER r2 (acc + evalT dictVal litVal tm)
            (evalT dictVal litVal tm)
            (advanced s (lastT tm) (toksERest r2 ++ more) (1 + (toksT tm).length))
            more hwr hneedR (by simp) (by simp) hmax h7 h8 h9 h10
          rw [advanced_advanced] at hg3
          simp only [ExprLoopP, hla, hop, if_pos, hg1, hg2, hg3, advanced_t]
          simp [evalERest, lastERest, toksERest, hop, List.length_append,
            List.length_cons]
          congr 1
          omega
        · have hg3 := ihER r2 (acc - evalT dictVal litVal tm)
            (evalT dictVal litVal tm)
            (advanced s (lastT tm) (toksERest r2 ++ more) (1 + (toksT tm).length))
            more hwr hneedR (by simp) (by simp) hmax h7 h8 h9 h10
          rw [advanced_advanced] at hg3
          simp only [ExprLoopP, hla, hop, hg1, hg2, hg3, advanced_t]
          simp [evalERest, lastERest, toksERest, hop, List.length_append,
            List.length_cons]
          congr 1
          omega
    · -- Term
      intro t v s more hwf hneed hla htoks hmax h9 h10
      cases t with
      | mk fa r =>
        have hw := hwf
        simp only [wfT, Bool.and_eq_true] at hw
        obtain ⟨hwfa, hwr⟩ := hw
        simp only [toksT, List.append_assoc] at hla htoks
        have hneedF : needF fa ≤ f := by simp only [needT] at hneed; omega
        have hneedR : needTRest r ≤ f := by simp only [needT] at hneed; omega
        have hg1 := ihF fa v s (toksTRest r ++ more) hwfa hneedF hla htoks
          (nextTRest_le r more hwr hmax)
        have hg2 := ihTR r (evalF dictVal litVal fa) 0
          (advanced s (lastF fa) (toksTRest r ++ more) (toksF fa).length)
          more hwr hneedR (by simp) (by simp) hmax h9 h10
        rw [advanced_advanced] at hg2
        simp only [TermP, hg1, hg2, advanced_t]
        simp [evalT, lastT, toksT, List.length_append]
    · -- TermLoop
      intro r acc v2 s more hwf hneed hla htoks hmax h9 h10
      cases r with
      | nil =>
        simp only [toksTRest, List.nil_append] at hla htoks
        have hs : advanced s s.t more 0 = s := advanced_zero s more hla htoks
        simp only [TermLoopP, hla, evalTRest, lastTRest, toksTRest]
        rw [if_neg (by simp [h9]), if_neg (by simp [h10])]
        simp [hs]
      | cons op fa r2 =>
        have hw := hwf
        simp only [wfTRest, Bool.and_eq_true, Bool.or_eq_true, beq_iff_eq] at hw
        obtain ⟨⟨hop, hwfa⟩, hwr⟩ := hw
        simp only [toksTRest, List.cons_append, List.append_assoc,
          nextTok_cons, List.tail_cons] at hla htoks
        have hneedF : needF fa ≤ f := by simp only [needTRest] at hneed; omega
        have hneedR : needTRest r2 ≤ f := by simp only [needTRest] at hneed; omega
        have hg1 := get_consume s op (toksF fa ++ (toksTRest r2 ++ more)) hla htoks
          (by rcases firstF_kind fa (toksTRest r2 ++ more) hwfa with h | h | h | h <;>
            simp [h, maxT])
        have hg2 := ihF fa v2 (advanced s op (toksF fa ++ (toksTRest r2 ++ more)) 1)
          (toksTRest r2 ++ more) hwfa hneedF (by simp) (by simp)
          (nextTRest_le r2 more hwr hmax)
        rw [advanced_advanced] at hg2
        rcases hop with hop | hop
        · have hg3 := ihTR r2 (acc * evalF dictVal litVal fa)
            (evalF dictVal litVal fa)
            (advanced s (lastF fa) (toksTRest r2 ++ more) (1 + (toksF fa).length))
            more hwr hneedR (by simp) (by simp) hmax h9 h10
          rw [advanced_advanced] at hg3
          simp only [TermLoopP, hla, hop, hg1, hg2, hg3, advanced_t]
          simp [evalTRest, lastTRest, toksTRest, hop, List.length_append,
            List.length_cons]
          congr 1
          omega
        · have hg3 := ihTR r2 (acc / evalF dictVal litVal fa)
            (evalF dictVal litVal fa)
            (advanced s (lastF fa) (toksTRest r2 ++ more) (1 + (toksF fa).length))
            more hwr hneedR (by simp) (by simp) hmax h9 h10
          rw [advanced_advanced] at hg3
          simp only [TermLoopP, hla, hop, hg1, hg2, hg3, advanced_t]
          simp [evalTRest, lastTRest, toksTRest, hop, List.length_append,
            List.length_cons]
          congr 1
          omega

end RunLemma

/-- The `Get()` loop always stops on a genuine terminal: it bumps
`errDist` exactly once, never touches diagnostics or the buffer position,
and consumes at least one stream token when any is left. -/
theorem getAux_basic : ∀ (l : List Token) (s : PState), s.toks = l →
    (GetAux (l.length + 1) s).errDist = s.errDist + 1 ∧
      ((GetAux (l.length + 1) s).la).kind ≤ maxT ∧
      (GetAux (l.length + 1) s).errs = s.errs ∧
      (GetAux (l.length + 1) s).bufPos = s.bufPos ∧
      (GetAux (l.length + 1) s).toks.length ≤ l.length - 1 := by
  intro l
  induction l with
  | nil =>
    intro s htoks
    simp [GetAux, scan, htoks, eofToken, maxT]
  | cons h rest ih =>
    intro s htoks
    by_cases hk : h.kind ≤ maxT
    · simp [GetAux, scan, htoks, hk]
    · have := ih
        { s with
          t := { kind := s.la.kind, val := s.la.val, pos := s.la.pos,
                 line := s.la.line, col := s.la.col },
          la := { kind := s.la.kind, val := s.la.val, pos := s.la.pos,
                  line := s.la.line, col := s.la.col },
          dummy := { kind := s.la.kind, val := s.la.val, pos := s.la.pos,
                     line := s.la.line, col := s.la.col },
          toks := rest } rfl
      simp only [List.length_cons, GetAux, scan, htoks, hk, if_false] at this ⊢
      refine ⟨this.1, this.2.1, this.2.2.1, this.2.2.2.1, by
        have := this.2.2.2.2; omega⟩

theorem get_errDist (s : PState) : (Get s).errDist = s.errDist + 1 :=
  (getAux_basic s.toks s rfl).1

theorem get_la_le (s : PState) : ((Get s).la).kind ≤ maxT :=
  (getAux_basic s.toks s rfl).2.1

theorem get_errs (s : PState) : (Get s).errs = s.errs :=
  (getAux_basic s.toks s rfl).2.2.1

theorem get_bufPos (s : PState) : (Get s).bufPos = s.bufPos :=
  (getAux_basic s.toks s rfl).2.2.2.1

theorem get_toks_le (s : PState) : (Get s).toks.length ≤ s.toks.length - 1 :=
  (getAux_basic s.toks s rfl).2.2.2.2

/-- On an exhausted scanner, `Get()` installs the end-of-file token. -/
theorem get_exhausted (s : PState) (h : s.toks = []) :
    Get s = { s with t := s.la, la := eofToken, toks := [],
                     errDist := s.errDist + 1 } := by
  simp [Get, h, GetAux, scan, eofToken, maxT]

/-- Once the lookahead is the dummy token, the `Get()` loop keeps
`t`, the lookahead and the dummy in lock step, preserving the absorbed
lexeme. -/
theorem getAux_dummy : ∀ (l : List Token) (s : PState), s.toks = l →
    s.la = s.dummy →
    (GetAux (l.length + 1) s).t = (GetAux (l.length + 1) s).dummy ∧
      ((GetAux (l.length + 1) s).dummy).val = s.la.val := by
  intro l
  induction l with
  | nil =>
    intro s htoks hlad
    simp [GetAux, scan, htoks, eofToken, maxT, hlad]
  | cons h rest ih =>
    intro s htoks hlad
    by_cases hk : h.kind ≤ maxT
    · simp [GetAux, scan, htoks, hk, hlad]
    · have := ih
        { s with
          t := { kind := s.la.kind, val := s.la.val, pos := s.la.pos,
                 line := s.la.line, col := s.la.col },
          la := { kind := s.la.kind, val := s.la.val, pos := s.la.pos,
                  line := s.la.line, col := s.la.col },
          dummy := { kind := s.la.kind, val := s.la.val, pos := s.la.pos,
                     line := s.la.line, col := s.la.col },
          toks := rest } rfl rfl
      simp only [List.length_cons, GetAux, scan, htoks, hk, if_false] at this ⊢
      exact this

/-- A pragma at the head of the stream is absorbed through the dummy
token: after `Get()`, the current token is the dummy and the dummy holds
the previous lookahead's lexeme. -/
theorem get_pragma (s : PState) (p : Token) (rest : List Token)
    (htoks : s.toks = p :: rest) (hp : maxT < p.kind) :
    (Get s).t = (Get s).dummy ∧ ((Get s).dummy).val = s.la.val := by
  have h1 : Get s = GetAux (rest.length + 1)
      { s with
        t := { kind := s.la.kind, val := s.la.val, pos := s.la.pos,
               line := s.la.line, col := s.la.col },
        la := { kind := s.la.kind, val := s.la.val, pos := s.la.pos,
                line := s.la.line, col := s.la.col },
        dummy := { kind := s.la.kind, val := s.la.val, pos := s.la.pos,
                   line := s.la.line, col := s.la.col },
        toks := rest } := by
    simp [Get, htoks, GetAux, scan, Nat.not_le.2 hp]
  rw [h1]
  exact getAux_dummy rest _ rfl rfl

/-- A resynchronization loop that starts on the guard does nothing. -/
theorem wsSkip_of_guard (f : Nat) (syFol repFol : Nat) (s : PState)
    (h : wsGuard syFol repFol s = true) :
    wsSkip f syFol repFol s = s := by
  cases f with
  | zero => rfl
  | succ f1 => simp [wsSkip, h]

/-- With fuel covering the remaining stream, the resynchronization loop
always halts on its guard: at worst at the end-of-file token, whose kind
lies in set 0. -/
theorem wsSkip_guard : ∀ (f : Nat) (s : PState) (syFol repFol : Nat),
    s.toks.length + 2 ≤ f →
    wsGuard syFol repFol (wsSkip f syFol repFol s) = true := by
  intro f
  induction f with
  | zero => intro s syFol repFol h; omega
  | succ f1 ih =>
    intro s syFol repFol h
    by_cases hg : wsGuard syFol repFol s = true
    · rw [wsSkip_of_guard (f1 + 1) syFol repFol s hg]
      exact hg
    · simp only [wsSkip, hg, if_false]
      rcases heq : s.toks with _ | ⟨h2, rest⟩
      · have hge := get_exhausted s heq
        have hguard : wsGuard syFol repFol (Get s) = true := by
          simp [wsGuard, StartOf, hge, startSet, eofToken]
        rw [wsSkip_of_guard f1 syFol repFol (Get s) hguard]
        exact hguard
      · have hlen : (Get s).toks.length + 2 ≤ f1 := by
          have := get_toks_le s
          rw [heq] at this
          simp only [List.length_cons] at this
          rw [heq] at h
          simp only [List.length_cons] at h
          omega
        exact ih (Get s) syFol repFol hlen

/-- One parse-level event: a successful `Get()`, a `SynErr(n)` or a
`SemErr`. -/
inductive PEv where
  | get : PEv
  | syn : Nat → PEv
  | sem : PEv
deriving Repr, DecidableEq

/-- Run a sequence of parse-level events on a state. -/
def runEvs : List PEv → PState → PState
  | [], s => s
  | PEv.get :: r, s => runEvs r (Get s)
  | PEv.syn n :: r, s => runEvs r (SynErr n s)
  | PEv.sem :: r, s => runEvs r (SemErr s)

/-- How many successful `Get()` events a sequence holds. -/
def countGets : List PEv → Nat
  | [] => 0
  | PEv.get :: r => countGets r + 1
  | PEv.syn _ :: r => countGets r
  | PEv.sem :: r => countGets r

/-- Cascade suppression, in trace form: starting at most `k` consumed
tokens after the last reported error, no event sequence with fewer than
`minErrDist - k` further `Get()`s can record a diagnostic. -/
theorem runEvs_no_report : ∀ (evs : List PEv) (s : PState) (k : Nat),
    s.errDist ≤ k → k + countGets evs < minErrDist →
    (runEvs evs s).errs = s.errs := by
  intro evs
  induction evs with
  | nil => intro s k _ _; rfl
  | cons ev r ih =>
    intro s k hd hlt
    cases ev with
    | get =>
      have h1 : (Get s).errDist ≤ k + 1 := by
        rw [get_errDist]; omega
      have h2 := ih (Get s) (k + 1) h1 (by simp [countGets] at hlt ⊢; omega)
      rw [runEvs, h2, get_errs]
    | syn n =>
      have hne : ¬ minErrDist ≤ s.errDist := by
        simp only [countGets] at hlt; omega
      have hs : SynErr n s = { s with errDist := 0 } := by
        simp [SynErr, hne]
      have h2 := ih (SynErr n s) k (by rw [hs]; simp)
        (by simp only [countGets] at hlt; omega)
      rw [runEvs, h2, hs]
    | sem =>
      have hne : ¬ minErrDist ≤ s.errDist := by
        simp only [countGets] at hlt; omega
      have hs : SemErr s = { s with errDist := 0 } := by
        simp [SemErr, hne]
      have h2 := ih (SemErr s) k (by rw [hs]; simp)
        (by simp only [countGets] at hlt; omega)
      rw [runEvs, h2, hs]

/-- Sample host literal resolver over the integers, used to instantiate
the parametric theorems at concrete inputs. -/
def litZ : String → Int := fun v =>
  match v with
  | "0" => 0
  | "1" => 1
  | "2" => 2
  | "3" => 3
  | "4" => 4
  | _ => 0

/-- Sample host dictionary resolver over the integers. -/
def dictZ : String → Int := fun _ => 5

/-- The phrase `1+1` as positioned inside the buffer
`prefix\x7b1+1\x7dsuffix` (offsets 7 to 9). -/
def ast11 : GExpr :=
  GExpr.mk (GTerm.mk (GFac.num ⟨4, "1", 7, 1, 8⟩) GTermRest.nil)
    (GExprRest.cons ⟨7, "+", 8, 1, 9⟩
      (GTerm.mk (GFac.num ⟨4, "1", 9, 1, 10⟩) GTermRest.nil) GExprRest.nil)

/-- The phrase `2+3*4`. -/
def ast234 : GExpr :=
  GExpr.mk (GTerm.mk (GFac.num ⟨4, "2", 0, 1, 1⟩) GTermRest.nil)
    (GExprRest.cons ⟨7, "+", 1, 1, 2⟩
      (GTerm.mk (GFac.num ⟨4, "3", 2, 1, 3⟩)
        (GTermRest.cons ⟨9, "*", 3, 1, 4⟩ (GFac.num ⟨4, "4", 4, 1, 5⟩)
          GTermRest.nil))
      GExprRest.nil)

/-- The phrase `(2+3)*4`. -/
def astParen : GExpr :=
  GExpr.mk
    (GTerm.mk
      (GFac.paren ⟨11, "(", 0, 1, 1⟩
        (GExpr.mk (GTerm.mk (GFac.num ⟨4, "2", 1, 1, 2⟩) GTermRest.nil)
          (GExprRest.cons ⟨7, "+", 2, 1, 3⟩
            (GTerm.mk (GFac.num ⟨4, "3", 3, 1, 4⟩) GTermRest.nil) GExprRest.nil))
        ⟨12, ")", 4, 1, 5⟩)
      (GTermRest.cons ⟨9, "*", 5, 1, 6⟩ (GFac.num ⟨4, "4", 6, 1, 7⟩)
        GTermRest.nil))
    GExprRest.nil

/-- The phrase `-(2+3)`. -/
def astNeg : GExpr :=
  GExpr.mk
    (GTerm.mk
      (GFac.neg ⟨8, "-", 0, 1, 1⟩ ⟨11, "(", 1, 1, 2⟩
        (GExpr.mk (GTerm.mk (GFac.num ⟨4, "2", 2, 1, 3⟩) GTermRest.nil)
          (GExprRest.cons ⟨7, "+", 3, 1, 4⟩
            (GTerm.mk (GFac.num ⟨4, "3", 4, 1, 5⟩) GTermRest.nil) GExprRest.nil))
        ⟨12, ")", 5, 1, 6⟩)
      GTermRest.nil)
    GExprRest.nil

/-- Claim C2: for every well-formed input matching the grammar, the
scalar produced by `Parse()` equals standard left-to-right,
precedence-respecting evaluation (`evalE`, which seeds an accumulator
from the first Term and folds each further `(+|-) Term` left-to-right,
`Term` folding `(*|/) Factor` left-to-right), and the parse records no
diagnostics. -/
theorem c2_parse_eval_spec {α : Type} [Zero α] [Add α] [Sub α] [Mul α]
    [Div α] [Neg α] (dictVal litVal : String → α) (f : Nat) (e : GExpr)
    (hwf : wfE e = true) (hf : needE e ≤ f) :
    ParseP dictVal litVal f (toksE e)
      = (evalE dictVal litVal e,
         { toks := [], bufPos := none, t := eofToken, la := eofToken,
           dummy := dummyInit, errDist := minErrDist + (toksE e).length + 2,
           errs := [] }) := by
  have hfirst := firstE_kind e [] hwf
  rw [List.append_nil] at hfirst
  have hfle : (nextTok (toksE e)).kind ≤ maxT := by
    rcases hfirst with h | h | h | h <;> simp [h, maxT]
  have hg0 := get_consume
    { mkParser (toksE e) with la := dummyInit, dummy := dummyInit }
    dummyInit (toksE e) rfl rfl hfle
  have hne5 : ¬ ((nextTok (toksE e)).kind = 5) := by
    rcases hfirst with h | h | h | h <;> simp [h]
  have hstart : startSet 1 (nextTok (toksE e)).kind = true := by
    rcases hfirst with h | h | h | h <;> simp [h, startSet]
  have hrun := (runAll dictVal litVal f).2.1 e (0 : α)
    (advanced { mkParser (toksE e) with la := dummyInit, dummy := dummyInit }
      dummyInit (toksE e) 1)
    [] hwf hf (by simp) (by simp) (by decide) (by decide) (by decide)
    (by decide) (by decide)
  rw [advanced_advanced] at hrun
  have hexp := expect_consume
    (advanced { mkParser (toksE e) with la := dummyInit, dummy := dummyInit }
      (lastE e) [] (1 + (toksE e).length))
    0 eofToken [] (by simp) (by simp) rfl (by decide)
  rw [advanced_advanced] at hexp
  simp only [ParseP]
  rw [hg0]
  simp only [calcEntryP, StartOf, advanced_la, hstart, if_pos, if_neg hne5,
    if_true]
  rw [hrun]
  simp only
  rw [hexp]
  simp only [advanced, mkParser, nextTok_nil, List.tail_nil]
  simp [minErrDist]
  omega

/-- Claim C2 witness: the spec's three examples, evaluated through the
parametric theorem at the integer resolvers — `2+3*4` is 14,
`(2+3)*4` is 20, `-(2+3)` is -5, each with an empty diagnostic list. -/
theorem c2_parse_eval_spec_witness :
    (ParseP dictZ litZ 10 (toksE ast234)).1 = 14 ∧
      ((ParseP dictZ litZ 10 (toksE ast234)).2).errs = [] ∧
      (ParseP dictZ litZ 10 (toksE astParen)).1 = 20 ∧
      ((ParseP dictZ litZ 10 (toksE astParen)).2).errs = [] ∧
      (ParseP dictZ litZ 10 (toksE astNeg)).1 = -5 ∧
      ((ParseP dictZ litZ 10 (toksE astNeg)).2).errs = [] := by
  have h1 := c2_parse_eval_spec dictZ litZ 10 ast234 (by decide) (by decide)
  have h2 := c2_parse_eval_spec dictZ litZ 10 astParen (by decide) (by decide)
  have h3 := c2_parse_eval_spec dictZ litZ 10 astNeg (by decide) (by decide)
  rw [h1, h2, h3]
  refine ⟨by decide, rfl, by decide, rfl, by decide, rfl⟩

/-- Claim C1 (amended): parsing the braced form `'{' Expr '}'` ends with
the buffer cursor repositioned to the closing brace token's offset plus
the length of its text — the position immediately after the matched `}` —
with no diagnostics recorded.  (The repositioning is not exclusive to a
successful match: the `'{'` alternative always repositions, see the
counterexample.) -/
theorem c1_braced_reposition {α : Type} [Zero α] [Add α] [Sub α] [Mul α]
    [Div α] [Neg α] (dictVal litVal : String → α) (f : Nat) (e : GExpr)
    (ob cb : Token) (more : List Token)
    (hwf : wfE e = true) (hf : needE e ≤ f) (hob : ob.kind = 5)
    (hcb : cb.kind = 6) (hmore : (nextTok more).kind ≤ maxT) :
    ParseP dictVal litVal f (ob :: (toksE e ++ cb :: more))
      = (evalE dictVal litVal e,
         { toks := more.tail, bufPos := some (cb.pos + cb.val.length), t := cb,
           la := nextTok more, dummy := dummyInit,
           errDist := minErrDist + (toksE e).length + 3, errs := [] }) := by
  have hg0 := get_consume
    { mkParser (ob :: (toksE e ++ cb :: more)) with
      la := dummyInit, dummy := dummyInit }
    dummyInit (ob :: (toksE e ++ cb :: more)) rfl rfl (by simp [hob, maxT])
  have hg1 := get_consume
    (advanced
      { mkParser (ob :: (toksE e ++ cb :: more)) with
        la := dummyInit, dummy := dummyInit }
      dummyInit (ob :: (toksE e ++ cb :: more)) 1)
    ob (toksE e ++ cb :: more) (by simp) (by simp)
    (firstE_le_maxT e (cb :: more) hwf)
  rw [advanced_advanced] at hg1
  have hrun := (runAll dictVal litVal f).2.1 e (0 : α)
    (advanced
      { mkParser (ob :: (toksE e ++ cb :: more)) with
        la := dummyInit, dummy := dummyInit }
      ob (toksE e ++ cb :: more) (1 + 1))
    (cb :: more) hwf hf (by simp) (by simp) (by simp [hcb, maxT])
    (by simp [hcb]) (by simp [hcb]) (by simp [hcb]) (by simp [hcb])
  rw [advanced_advanced] at hrun
  have hexp := expect_consume
    (advanced
      { mkParser (ob :: (toksE e ++ cb :: more)) with
        la := dummyInit, dummy := dummyInit }
      (lastE e) (cb :: more) (1 + 1 + (toksE e).length))
    6 cb more (by simp) (by simp) hcb hmore
  rw [advanced_advanced] at hexp
  simp only [ParseP]
  rw [hg0]
  simp only [calcEntryP, advanced_la, nextTok_cons, hob, if_pos, if_true]
  rw [hg1, hrun]
  simp only
  rw [hexp]
  simp only [SetPos, advanced, mkParser, advanced_t]
  simp [minErrDist]
  omega

/-- Claim C1 counterexample: on the input `{1` — whose closing `}` is
missing, so `'{' Expr '}'` is not successfully matched and a
`"\x7d" expected` diagnostic (code 6) is recorded — the parser still
repositions the buffer cursor (here to offset 2, after the `1` token);
the repositioning is therefore not performed only after a successful
match of the braced form. -/
theorem c1_reposition_despite_error :
    ((ParseP dictZ litZ 10
        [⟨5, "\x7b", 0, 1, 1⟩, ⟨4, "1", 1, 1, 2⟩]).2).errs = [Diag.syn 0 0 6] ∧
      ((ParseP dictZ litZ 10
        [⟨5, "\x7b", 0, 1, 1⟩, ⟨4, "1", 1, 1, 2⟩]).2).bufPos = some 2 := by
  decide

/-- Claim C1 witness: the buffer `prefix\x7b1+1\x7dsuffix` parsed from
the `\x7b` at offset 6 — the closing brace sits at offset 10 with a
one-character lexeme, and the cursor ends at 11, immediately before
`suffix`. -/
theorem c1_braced_reposition_witness :
    ParseP dictZ litZ 10
        (⟨5, "\x7b", 6, 1, 7⟩ :: (toksE ast11 ++ ⟨6, "\x7d", 10, 1, 11⟩ :: []))
      = (2, { toks := [], bufPos := some 11, t := ⟨6, "\x7d", 10, 1, 11⟩,
              la := eofToken, dummy := dummyInit,
              errDist := minErrDist + 3 + 3, errs := [] }) := by
  have h := c1_braced_reposition dictZ litZ 10 ast11 ⟨5, "\x7b", 6, 1, 7⟩
    ⟨6, "\x7d", 10, 1, 11⟩ [] (by decide) (by decide) rfl rfl (by decide)
  rw [h]
  decide

/-- Claim C3: `errDist` is reset to 0 by every `SynErr`/`SemErr` (reported
or not), incremented by exactly one per successful `Get()` (whose result
is always a genuine token), an error call increments the error count
exactly when `errDist` has reached `minErrDist`, and — in trace form —
starting from a just-reported error (`errDist = 0`) no event sequence
with fewer than `minErrDist` consumed tokens can record another
diagnostic, so consecutive reported diagnostics are separated by at least
`minErrDist` successfully consumed tokens. -/
theorem c3_errDist_discipline :
    (∀ (n : Nat) (s : PState),
      (SynErr n s).errDist = 0 ∧ (SemErr s).errDist = 0) ∧
      (∀ s : PState, (Get s).errDist = s.errDist + 1) ∧
      (∀ (n : Nat) (s : PState),
        errCount (SynErr n s)
            = errCount s + (if minErrDist ≤ s.errDist then 1 else 0) ∧
          errCount (SemErr s)
            = errCount s + (if minErrDist ≤ s.errDist then 1 else 0)) ∧
      (∀ (evs : List PEv) (s : PState), s.errDist = 0 →
        countGets evs < minErrDist → errCount (runEvs evs s) = errCount s) := by
  refine ⟨?_, get_errDist, ?_, ?_⟩
  · intro n s
    refine ⟨?_, ?_⟩
    · unfold SynErr; split <;> rfl
    · unfold SemErr; split <;> rfl
  · intro n s
    refine ⟨?_, ?_⟩
    · unfold SynErr; split <;> simp_all [errCount]
    · unfold SemErr; split <;> simp_all [errCount]
  · intro evs s h0 hlt
    have h := runEvs_no_report evs s 0 (by omega) (by omega)
    simp [errCount, h]

/-- Claim C4: bare, unparenthesized negation is rejected — `-3` and `-x`
each produce a syntax diagnostic (code 11, `"(" expected`) and an error
count of at least 1 — while the parenthesized form `-(3)` parses with
zero errors; negation is accepted only as `- ( Expr )`. -/
theorem c4_bare_negation_rejected :
    ((ParseP dictZ litZ 10 [⟨8, "-", 0, 1, 1⟩, ⟨4, "3", 1, 1, 2⟩]).2).errs
        = [Diag.syn 1 2 11] ∧
      1 ≤ errCount (ParseP dictZ litZ 10
        [⟨8, "-", 0, 1, 1⟩, ⟨4, "3", 1, 1, 2⟩]).2 ∧
      ((ParseP dictZ litZ 10 [⟨8, "-", 0, 1, 1⟩, ⟨3, "x", 1, 1, 2⟩]).2).errs
        = [Diag.syn 1 2 11] ∧
      1 ≤ errCount (ParseP dictZ litZ 10
        [⟨8, "-", 0, 1, 1⟩, ⟨3, "x", 1, 1, 2⟩]).2 ∧
      errCount (ParseP dictZ litZ 10
        [⟨8, "-", 0, 1, 1⟩, ⟨11, "(", 1, 1, 2⟩, ⟨4, "3", 2, 1, 3⟩,
         ⟨12, ")", 3, 1, 4⟩]).2 = 0 ∧
      (ParseP dictZ litZ 10
        [⟨8, "-", 0, 1, 1⟩, ⟨11, "(", 1, 1, 2⟩, ⟨4, "3", 2, 1, 3⟩,
         ⟨12, ")", 3, 1, 4⟩]).1 = -3 := by
  decide

/-- Claim C5: a zero divisor is never a parse-time error — `1/0` parses
with an empty diagnostic list, and the resulting value is exactly the
host scalar division applied to the operands (whatever the host's
division semantics make of it), not a trapped error. -/
theorem c5_div_by_zero_no_error {α : Type} [Zero α] [Add α] [Sub α] [Mul α]
    [Div α] [Neg α] (dictVal litVal : String → α) :
    (ParseP dictVal litVal 10
        [⟨4, "1", 0, 1, 1⟩, ⟨10, "/", 1, 1, 2⟩, ⟨4, "0", 2, 1, 3⟩]).1
        = litVal "1" / litVal "0" ∧
      ((ParseP dictVal litVal 10
        [⟨4, "1", 0, 1, 1⟩, ⟨10, "/", 1, 1, 2⟩, ⟨4, "0", 2, 1, 3⟩]).2).errs
        = [] :=
  ⟨rfl, rfl⟩

/-- A parser state whose lookahead is a variable token: used to exhibit
`WeakSeparator` answering `true` although the separator is absent. -/
def wsState : PState :=
  { toks := [], bufPos := none, t := nullToken, la := ⟨3, "x", 0, 1, 1⟩,
    dummy := nullToken, errDist := minErrDist, errs := [] }

/-- Claim C6 counterexample: `WeakSeparator 7 1 0` on a lookahead of kind
3 — the separator `+` is not present and the repeat-follow set 0 does not
hold it — resynchronizes on the spot (kind 3 is in sync-follow set 1) and
returns `true`, so the return value is not "whether the separator token
was present". -/
theorem c6_true_without_separator :
    (WeakSeparator 7 1 0 wsState).1 = true ∧ wsState.la.kind ≠ 7 := by
  decide

/-- Claim C6 (amended): `WeakSeparator(kind, syncFollow, repeatFollow)`
consumes a present separator and returns `true`; when the separator is
absent and the lookahead already belongs to the repeat-follow set it
returns `false` with no diagnostic and an unchanged state; otherwise it
calls `SynErr`, skips tokens until the lookahead lies in the sync-follow,
repeat-follow or end-of-file set, and returns whether the lookahead then
lies in the sync-follow set — which may be `true` even though the
separator was never present. -/
theorem c6_weakSeparator_spec (n syFol repFol : Nat) (s : PState) :
    (s.la.kind = n → WeakSeparator n syFol repFol s = (true, Get s)) ∧
      (s.la.kind ≠ n → StartOf repFol s = true →
        WeakSeparator n syFol repFol s = (false, s)) ∧
      (s.la.kind ≠ n → StartOf repFol s = false →
        (WeakSeparator n syFol repFol s).2
            = wsSkip ((SynErr n s).toks.length + 2) syFol repFol (SynErr n s) ∧
          wsGuard syFol repFol ((WeakSeparator n syFol repFol s).2) = true ∧
          (WeakSeparator n syFol repFol s).1
            = StartOf syFol ((WeakSeparator n syFol repFol s).2)) := by
  refine ⟨?_, ?_, ?_⟩
  · intro h
    simp [WeakSeparator, h]
  · intro h hr
    simp [WeakSeparator, h, hr]
  · intro h hr
    simp only [WeakSeparator, h, hr, if_neg, if_false, Bool.false_eq_true]
    exact ⟨by trivial, wsSkip_guard _ _ _ _ (Nat.le_refl _), by trivial⟩

/-- Claim C7: `Expect(n)` consumes the lookahead exactly when its kind is
`n`; otherwise it calls `SynErr(n)` — leaving lookahead, stream and
current token untouched, and recording the `kind n expected` diagnostic
at the lookahead's position whenever `errDist` has reached the reporting
threshold. -/
theorem c7_expect_spec (n : Nat) (s : PState) :
    (s.la.kind = n → Expect n s = Get s) ∧
      (s.la.kind ≠ n →
        Expect n s = SynErr n s ∧ (Expect n s).la = s.la ∧
          (Expect n s).toks = s.toks ∧ (Expect n s).t = s.t ∧
          (minErrDist ≤ s.errDist →
            (Expect n s).errs = s.errs ++ [Diag.syn s.la.line s.la.col n])) := by
  refine ⟨fun h => by simp [Expect, h], fun h => ?_⟩
  have he : Expect n s = SynErr n s := by simp [Expect, h]
  refine ⟨he, ?_, ?_, ?_, ?_⟩
  · rw [he]; unfold SynErr; split <;> rfl
  · rw [he]; unfold SynErr; split <;> rfl
  · rw [he]; unfold SynErr; split <;> rfl
  · intro hge
    rw [he]
    simp [SynErr, hge]

/-- Claim C8: after every `Get()` the lookahead's kind is at most `maxT`
— a genuine terminal — and when the head of the stream is a pragma token
(kind above `maxT`) it is absorbed through the reusable dummy token: the
current token becomes the dummy, which preserves the previous lookahead's
lexeme, and the pragma never becomes the live lookahead. -/
theorem c8_get_lookahead_genuine (s : PState) :
    ((Get s).la).kind ≤ maxT ∧
      (∀ (p : Token) (rest : List Token), s.toks = p :: rest → maxT < p.kind →
        (Get s).t = (Get s).dummy ∧ ((Get s).dummy).val = s.la.val) :=
  ⟨get_la_le s, fun p rest h1 h2 => get_pragma s p rest h1 h2⟩

/-- Claim C9: `calcEntry` sets the accumulator to 0 before consuming
anything, so on a first token that starts no alternative (a genuine
terminal that is neither `{` nor in the Factor start set) the parse ends
with result exactly 0 and exactly one diagnostic, `invalid calcEntry`
(code 14), at that token's position. -/
theorem c9_invalid_calcEntry_zero {α : Type} [Zero α] [Add α] [Sub α]
    [Mul α] [Div α] [Neg α] (dictVal litVal : String → α) (f : Nat)
    (tok : Token) (rest : List Token) (hk : tok.kind ≤ maxT)
    (h5 : tok.kind ≠ 5) (hs : startSet 1 tok.kind = false) :
    ParseP dictVal litVal f (tok :: rest)
      = ((0 : α),
         { toks := rest, bufPos := none, t := dummyInit, la := tok,
           dummy := dummyInit, errDist := 0,
           errs := [Diag.syn tok.line tok.col 14] }) := by
  have hg0 := get_consume
    { mkParser (tok :: rest) with la := dummyInit, dummy := dummyInit }
    dummyInit (tok :: rest) rfl rfl (by simpa using hk)
  simp only [ParseP]
  rw [hg0]
  simp only [calcEntryP, advanced_la, nextTok_cons, StartOf, hs, if_neg h5,
    if_false, Bool.false_eq_true]
  simp [SynErr, advanced, mkParser, minErrDist]

/-- Claim C9 witness: a lone `+` token starts no alternative of
`calcEntry`; the parse returns 0 with the single `invalid calcEntry`
diagnostic. -/
theorem c9_invalid_calcEntry_zero_witness :
    ParseP dictZ litZ 10 [⟨7, "+", 0, 1, 1⟩]
      = ((0 : Int),
         { toks := [], bufPos := none, t := dummyInit, la := ⟨7, "+", 0, 1, 1⟩,
           dummy := dummyInit, errDist := 0, errs := [Diag.syn 1 1 14] }) := by
  exact c9_invalid_calcEntry_zero dictZ litZ 10 ⟨7, "+", 0, 1, 1⟩ []
    (by decide) (by decide) (by decide)

/-- Claim C10: the constructor presets `errDist` to `minErrDist`, so the
very first `SynErr` or `SemErr` on a freshly constructed parser is never
suppressed: it increments the error count. -/
theorem c10_ctor_first_error_reported (toks : List Token) (n : Nat) :
    (mkParser toks).errDist = minErrDist ∧
      errCount (SynErr n (mkParser toks)) = errCount (mkParser toks) + 1 ∧
      errCount (SemErr (mkParser toks)) = errCount (mkParser toks) + 1 := by
  refine ⟨rfl, ?_, ?_⟩ <;> simp [SynErr, SemErr, errCount, mkParser]

end CalcEntry
